import Mathlib

/-!
Shallow embedding of the queueing subsystem of `collective.indexing`.

Embedded source files:

* `src/collective/indexing/reducer.py` — `QueueReducer.optimize`;
* `src/collective/indexing/queue.py` — `IndexQueue` (called variant A
  below: no reduction inside `process`, `commit()` issued inside
  `process`, no `abort` method);
* `src/src/collective/indexing/queue.py` — `IndexQueue` (called
  variant B below: reduction inside `process`, `commit` and `abort` as
  separate methods, `process` itself never commits).

Modelling conventions: object keys are an opaque type `κ` with
decidable equality; a Python argument that may be `None` is an
`Option`; the registered `IIndexQueueProcessor` utilities are
identified by their position in the registration-ordered list returned
by `getUtilitiesFor`, and every call the queue makes on a utility is
recorded in an event trace.  A method guarded by an `assert` returns
the unchanged state paired with `some` error when the assertion fails,
mirroring the fact that the assertion fires before any mutation.
-/

set_option maxRecDepth 4096

namespace CollectiveIndexing

/-- Modelled from the spec: the operation constants live in
`collective/indexing/config.py`, which is not part of the source tree.
Spec §3 fixes the total order `UNINDEX < REINDEX < INDEX` as the
integers `-1, 0, 1`, which is also what the comment in `reducer.py`
("Operators are -1, 0 or 1") and its clamp `min(max(op, UNINDEX), INDEX)`
require. -/
def INDEX : Int := 1

/-- Modelled from the spec: see `INDEX`. -/
def REINDEX : Int := 0

/-- Modelled from the spec: see `INDEX`. -/
def UNINDEX : Int := -1

/-- An attribute set: `none` is Python `None`, meaning "all attributes";
otherwise the tuple of attribute names. -/
abbrev Attr := Option (List String)

/-- A queue entry, the Python tuple `(operation, object, attributes)`. -/
abbrev QEntry (κ : Type) := Int × κ × Attr

namespace Reducer

variable {κ : Type} [DecidableEq κ]

/-- `res.get(obj)` on the accumulator dict of `QueueReducer.optimize`,
with the dict modelled as an insertion-ordered association list whose
keys are unique. -/
def dictGet : List (κ × Int × Attr) → κ → Option (Int × Attr)
  | [], _ => none
  | p :: rest, k => if p.1 = k then some p.2 else dictGet rest k

/-- `del res[obj]` on the accumulator dict. -/
def dictDel : List (κ × Int × Attr) → κ → List (κ × Int × Attr)
  | [], _ => []
  | p :: rest, k => if p.1 = k then dictDel rest k else p :: dictDel rest k

/-- `res[obj] = v` on the accumulator dict: update in place when the key
is present, append otherwise. -/
def dictSet : List (κ × Int × Attr) → κ → Int × Attr → List (κ × Int × Attr)
  | [], k, v => [(k, v)]
  | p :: rest, k, v => if p.1 = k then (k, v) :: rest else p :: dictSet rest k v

/-- `tmp.update(dict.fromkeys(xs))` in `QueueReducer.optimize`: add the
members of `xs` not already present, keeping first-seen order. -/
def addKeys (t : List String) (xs : List String) : List String :=
  xs.foldl (fun acc x => if x ∈ acc then acc else acc ++ [x]) t

/-- The attribute-tuple union computed through the `tmp` dict in
`QueueReducer.optimize`. -/
def unionKeys (a b : List String) : List String :=
  addKeys (addKeys [] a) b

/-- Attribute handling in `QueueReducer.optimize`: `None` means all
fields and takes precedence; two tuples/lists combine to their union. -/
def combineAttr : Attr → Attr → Attr
  | some a, some b => some (unionKeys a b)
  | _, _ => none

/-- One iteration of the `for iop, obj, iattr in queue` loop of
`QueueReducer.optimize`: read the accumulated `(op, attr)` with default
`(0, iattr)`; delete the key when an `UNINDEX` meets an accumulated
`INDEX`; otherwise clamp the summed operation and combine attributes. -/
def reduceStep (res : List (κ × Int × Attr)) (e : QEntry κ) : List (κ × Int × Attr) :=
  let acc := (dictGet res e.2.1).getD (0, e.2.2)
  if acc.1 = INDEX ∧ e.1 = UNINDEX then
    dictDel res e.2.1
  else
    dictSet res e.2.1 (min (max (acc.1 + e.1) UNINDEX) INDEX, combineAttr acc.2 e.2.2)

/-- `QueueReducer.optimize`: fold the queue into the accumulator dict and
emit the surviving `(op, obj, attr)` triples. -/
def optimize (queue : List (QEntry κ)) : List (QEntry κ) :=
  (queue.foldl reduceStep []).map fun p => (p.2.1, p.1, p.2.2)

end Reducer

/-- A call made by the queue on the utility registered at position `u`
of the registration-ordered utility list. -/
inductive Event (κ : Type) where
  | begin (u : Nat)
  | index (u : Nat) (obj : κ) (attr : Attr)
  | reindex (u : Nat) (obj : κ) (attr : Attr)
  | unindex (u : Nat) (obj : κ)
  | commit (u : Nat)
  | abort (u : Nat)
  deriving DecidableEq

/-- The errors the queue can raise: the `assert` statements of
`IndexQueue.index`/`reindex`/`unindex` (`'invalid object'`), of
`setState` (`'state must be a list'`), of `setHook`, and the
`'InvalidQueueOperation'` raise in the dispatch loop of `process`. -/
inductive QueueError where
  | invalidOperand
  | invalidState
  | invalidHook
  | invalidQueueOperation
  deriving DecidableEq

/-- Whether an event is a dispatch of a queued operation. -/
def isDispatchEvent {κ : Type} : Event κ → Bool
  | .index .. => true
  | .reindex .. => true
  | .unindex .. => true
  | _ => false

/-- Whether an event is a `commit()` notification. -/
def isCommitEvent {κ : Type} : Event κ → Bool
  | .commit _ => true
  | _ => false

/-- Whether an event is an `abort()` notification. -/
def isAbortEvent {κ : Type} : Event κ → Bool
  | .abort _ => true
  | _ => false

/-- The inner `for name, util in utilities` loop of `IndexQueue.process`
for a single queue entry: every utility receives the call matching the
operation code.  An unknown operation code raises
`'InvalidQueueOperation'` on the first utility iteration, so it emits no
event; when no utility is registered the loop body never runs, so even an
unknown code raises nothing. -/
def dispatchOne {κ : Type} (utils : List Nat) (e : QEntry κ) :
    Except QueueError (List (Event κ)) :=
  if e.1 = INDEX then .ok (utils.map fun u => .index u e.2.1 e.2.2)
  else if e.1 = REINDEX then .ok (utils.map fun u => .reindex u e.2.1 e.2.2)
  else if e.1 = UNINDEX then .ok (utils.map fun u => .unindex u e.2.1)
  else
    match utils with
    | [] => .ok []
    | _ :: _ => .error .invalidQueueOperation

/-- The outer `for op, obj, attributes in self.queue` loop of
`IndexQueue.process`: returns the emitted events, the error (if a raise
interrupted the loop) and the `processed` counter. -/
def dispatchAll {κ : Type} (utils : List Nat) :
    List (QEntry κ) → List (Event κ) × Option QueueError × Nat
  | [] => ([], none, 0)
  | e :: rest =>
    match dispatchOne utils e with
    | .error er => ([], some er, 0)
    | .ok evts =>
      let r := dispatchAll utils rest
      (evts ++ r.1, r.2.1, r.2.2 + 1)

namespace QueueA

/-- Thread-local state of `IndexQueue` in
`src/collective/indexing/queue.py`: only the `queue` list is
observable (the `hook` slot holds an opaque callable whose default is a
no-op lambda). -/
structure State (κ : Type) where
  queue : List (QEntry κ)
  deriving DecidableEq

variable {κ : Type}

/-- Variant A `IndexQueue.index`: `assert obj is not None` and then
append `(INDEX, obj, attributes)`; the assertion fires before the
append, so on failure the state is unchanged. -/
def index (s : State κ) (obj : Option κ) (attributes : Attr) :
    State κ × Option QueueError :=
  match obj with
  | none => (s, some .invalidOperand)
  | some o => (⟨s.queue ++ [(INDEX, o, attributes)]⟩, none)

/-- Variant A `IndexQueue.reindex`. -/
def reindex (s : State κ) (obj : Option κ) (attributes : Attr) :
    State κ × Option QueueError :=
  match obj with
  | none => (s, some .invalidOperand)
  | some o => (⟨s.queue ++ [(REINDEX, o, attributes)]⟩, none)

/-- Variant A `IndexQueue.unindex`: the appended attribute value is
always `None`. -/
def unindex (s : State κ) (obj : Option κ) : State κ × Option QueueError :=
  match obj with
  | none => (s, some .invalidOperand)
  | some o => (⟨s.queue ++ [(UNINDEX, o, none)]⟩, none)

/-- Variant A `IndexQueue.getState`: a copy of the queue list. -/
def getState (s : State κ) : List (QEntry κ) := s.queue

/-- Variant A `IndexQueue.setState`: `assert isinstance(state, list)` —
always satisfied by a typed list — then replace the queue. -/
def setState (_s : State κ) (st : List (QEntry κ)) : State κ × Option QueueError :=
  (⟨st⟩, none)

/-- Variant A `IndexQueue.clear`: `del self.queue[:]`. -/
def clear (_s : State κ) : State κ := ⟨[]⟩

/-- Variant A `IndexQueue.process`: `begin()` on every utility, dispatch
the raw queue (this variant performs no reduction inside `process`),
`commit()` on every utility, clear and return the `processed` count.
On a dispatch error the queue is left as it was. -/
def process (utils : List Nat) (s : State κ) :
    State κ × List (Event κ) × Except QueueError Nat :=
  let begins := utils.map Event.begin
  match dispatchAll utils s.queue with
  | (evts, none, n) => (⟨[]⟩, begins ++ evts ++ utils.map Event.commit, .ok n)
  | (evts, some er, _) => (s, begins ++ evts, .error er)

end QueueA

namespace QueueB

/-- State of `IndexQueue` in `src/src/collective/indexing/queue.py`: the
`queue` list plus whether a transaction-manager hook is currently
registered (`self.tmhook is not None`). -/
structure State (κ : Type) where
  queue : List (QEntry κ)
  tmhook : Bool
  deriving DecidableEq

variable {κ : Type}

/-- Variant B `IndexQueue.hook`: register a `QueueTM` hook when none is
registered yet; the invocation of the hook itself is an effect on the
external transaction machinery and leaves the queue state alone. -/
def hook (s : State κ) : State κ := { s with tmhook := true }

/-- Variant B `wrap`: the `PathWrapper` proxy freezes the identifying
path at enqueue time while delegating every other read and the hash to
the original object (spec §4.4); on opaque keys it is therefore the
identity. -/
def wrap (o : κ) : κ := o

/-- Variant B `IndexQueue.index`: assert, append `(INDEX, obj,
attributes)`, arm the hook. -/
def index (s : State κ) (obj : Option κ) (attributes : Attr) :
    State κ × Option QueueError :=
  match obj with
  | none => (s, some .invalidOperand)
  | some o => (hook ⟨s.queue ++ [(INDEX, o, attributes)], s.tmhook⟩, none)

/-- Variant B `IndexQueue.reindex`. -/
def reindex (s : State κ) (obj : Option κ) (attributes : Attr) :
    State κ × Option QueueError :=
  match obj with
  | none => (s, some .invalidOperand)
  | some o => (hook ⟨s.queue ++ [(REINDEX, o, attributes)], s.tmhook⟩, none)

/-- Variant B `IndexQueue.unindex`: the key is wrapped by `wrap` and the
appended attribute value is always `None`. -/
def unindex (s : State κ) (obj : Option κ) : State κ × Option QueueError :=
  match obj with
  | none => (s, some .invalidOperand)
  | some o => (hook ⟨s.queue ++ [(UNINDEX, wrap o, none)], s.tmhook⟩, none)

/-- Variant B `IndexQueue.getState`: a copy of the queue list. -/
def getState (s : State κ) : List (QEntry κ) := s.queue

/-- Variant B `IndexQueue.setState`: `assert isinstance(state, list)` —
always satisfied by a typed list — then `self.queue = state`. -/
def setState (s : State κ) (st : List (QEntry κ)) : State κ × Option QueueError :=
  ({ s with queue := st }, none)

/-- Variant B `IndexQueue.length`. -/
def length (s : State κ) : Nat := s.queue.length

/-- Variant B `IndexQueue.optimize`: when an `IQueueReducer` utility is
registered, replace the queue with `reducer.optimize(self.getState())`;
a no-op otherwise. -/
def optimize (reducer : Option (List (QEntry κ) → List (QEntry κ))) (s : State κ) :
    State κ :=
  match reducer with
  | none => s
  | some r => { s with queue := r s.queue }

/-- Variant B `IndexQueue.clear`: empty the queue and release the
transaction-manager hook. -/
def clear (_s : State κ) : State κ := ⟨[], false⟩

/-- Variant B `IndexQueue.process`: `begin()` on every utility, reduce
the queue via `optimize`, dispatch the reduced queue, clear and return
the `processed` count.  This variant never calls `commit()` inside
`process`; that is the separate `commit` method.  On a dispatch error
the already-reduced queue is left in place. -/
def process (utils : List Nat) (reducer : Option (List (QEntry κ) → List (QEntry κ)))
    (s : State κ) : State κ × List (Event κ) × Except QueueError Nat :=
  let begins := utils.map Event.begin
  let s1 := optimize reducer s
  match dispatchAll utils s1.queue with
  | (evts, none, n) => (clear s1, begins ++ evts, .ok n)
  | (evts, some er, _) => (s1, begins ++ evts, .error er)

/-- Variant B `IndexQueue.commit`: `commit()` on every utility; the
queue state itself is untouched. -/
def commit (utils : List Nat) (s : State κ) : State κ × List (Event κ) :=
  (s, utils.map Event.commit)

/-- Variant B `IndexQueue.abort`: `abort()` on every utility — no queued
operation is dispatched — then `clear`. -/
def abort (utils : List Nat) (s : State κ) : State κ × List (Event κ) :=
  (clear s, utils.map Event.abort)

end QueueB

namespace PyRaw

/-- A fragment of the Python value universe, large enough to express
what `IndexQueue.setState` actually validates: a list (whose elements
may or may not be well-formed entry triples), a well-formed
`(operation, object, attributes)` triple, or some other object. -/
inductive PyVal where
  | pylist (xs : List PyVal)
  | pytriple (op : Int) (obj : String) (attr : Attr)
  | pyint (n : Int)

/-- Whether a value is an ordered sequence of well-formed queue-entry
triples, the precondition the spec states for `setState`. -/
def isEntrySeq : PyVal → Bool
  | .pylist xs => xs.all fun x => match x with | .pytriple .. => true | _ => false
  | _ => false

/-- `IndexQueue.setState` at the untyped level: the guard is exactly
`assert isinstance(state, list)`, so any list — well-formed entries or
not — replaces the queue, and only a non-list is rejected. -/
def setState (q : List PyVal) (v : PyVal) : List PyVal × Option QueueError :=
  match v with
  | .pylist xs => (xs, none)
  | _ => (q, some .invalidState)

end PyRaw

/-! ## Helper lemmas -/

namespace Reducer

variable {κ : Type} [DecidableEq κ]

theorem mem_addKeys (xs t : List String) (x : String) :
    x ∈ addKeys t xs ↔ x ∈ t ∨ x ∈ xs := by
  induction xs generalizing t with
  | nil => simp [addKeys]
  | cons y ys ih =>
    have hstep : addKeys t (y :: ys) = addKeys (if y ∈ t then t else t ++ [y]) ys := rfl
    rw [hstep]
    by_cases hy : y ∈ t
    · rw [if_pos hy, ih]
      simp only [List.mem_cons]
      constructor
      · rintro (h | h)
        · exact Or.inl h
        · exact Or.inr (Or.inr h)
      · rintro (h | h | h)
        · exact Or.inl h
        · exact Or.inl (h ▸ hy)
        · exact Or.inr h
    · rw [if_neg hy, ih]
      simp only [List.mem_append, List.mem_singleton, List.mem_cons]
      tauto

theorem mem_unionKeys (a b : List String) (x : String) :
    x ∈ unionKeys a b ↔ x ∈ a ∨ x ∈ b := by
  unfold unionKeys
  rw [mem_addKeys, mem_addKeys]
  simp

theorem dictGet_cons_self (k : κ) (v : Int × Attr) (rest : List (κ × Int × Attr)) :
    dictGet ((k, v) :: rest) k = some v := by
  simp [dictGet]

theorem dictGet_dictDel (res : List (κ × Int × Attr)) (k : κ) :
    dictGet (dictDel res k) k = none := by
  induction res with
  | nil => rfl
  | cons p rest ih =>
    by_cases h : p.1 = k
    · simpa [dictDel, h] using ih
    · simpa [dictDel, dictGet, h] using ih

theorem keys_dictDel_sublist (res : List (κ × Int × Attr)) (k : κ) :
    ((dictDel res k).map Prod.fst).Sublist (res.map Prod.fst) := by
  induction res with
  | nil => simp [dictDel]
  | cons p rest ih =>
    by_cases h : p.1 = k
    · simp only [dictDel, if_pos h, List.map_cons]
      exact List.Sublist.cons p.1 ih
    · simp only [dictDel, if_neg h, List.map_cons]
      exact List.Sublist.cons₂ p.1 ih

theorem mem_keys_dictSet (res : List (κ × Int × Attr)) (k : κ) (v : Int × Attr)
    (x : κ) (hx : x ∈ (dictSet res k v).map Prod.fst) :
    x = k ∨ x ∈ res.map Prod.fst := by
  induction res with
  | nil => simpa [dictSet] using hx
  | cons p rest ih =>
    by_cases h : p.1 = k
    · simp only [dictSet, if_pos h, List.map_cons, List.mem_cons] at hx
      simp only [List.map_cons, List.mem_cons]
      tauto
    · simp only [dictSet, if_neg h, List.map_cons, List.mem_cons] at hx
      simp only [List.map_cons, List.mem_cons]
      rcases hx with h1 | h1
      · exact Or.inr (Or.inl h1)
      · rcases ih h1 with h2 | h2
        · exact Or.inl h2
        · exact Or.inr (Or.inr h2)

theorem nodup_keys_dictSet (res : List (κ × Int × Attr)) (k : κ) (v : Int × Attr)
    (h : (res.map Prod.fst).Nodup) : ((dictSet res k v).map Prod.fst).Nodup := by
  induction res with
  | nil => simp [dictSet]
  | cons p rest ih =>
    rw [List.map_cons, List.nodup_cons] at h
    by_cases hk : p.1 = k
    · simp only [dictSet, if_pos hk, List.map_cons, List.nodup_cons]
      exact ⟨hk ▸ h.1, h.2⟩
    · simp only [dictSet, if_neg hk, List.map_cons, List.nodup_cons]
      refine ⟨?_, ih h.2⟩
      intro hmem
      rcases mem_keys_dictSet rest k v p.1 hmem with h1 | h1
      · exact hk h1
      · exact h.1 h1

theorem nodup_keys_reduceStep (res : List (κ × Int × Attr)) (e : QEntry κ)
    (h : (res.map Prod.fst).Nodup) : ((reduceStep res e).map Prod.fst).Nodup := by
  simp only [reduceStep]
  split
  · exact List.Nodup.sublist (keys_dictDel_sublist res e.2.1) h
  · exact nodup_keys_dictSet res e.2.1 _ h

theorem nodup_keys_foldl (q : List (QEntry κ)) (res : List (κ × Int × Attr))
    (h : (res.map Prod.fst).Nodup) :
    ((q.foldl reduceStep res).map Prod.fst).Nodup := by
  induction q generalizing res with
  | nil => simpa using h
  | cons e rest ih => exact ih _ (nodup_keys_reduceStep res e h)

theorem reduceStep_nil (e : QEntry κ) :
    reduceStep ([] : List (κ × Int × Attr)) e
      = [(e.2.1, (min (max e.1 UNINDEX) INDEX, combineAttr e.2.2 e.2.2))] := by
  have h01 : ¬ ((0 : Int) = INDEX ∧ e.1 = UNINDEX) := by
    intro hc
    exact absurd hc.1 (by decide)
  simp [reduceStep, dictGet, dictSet, h01]

theorem reduceStep_same_key (k : κ) (v : Int × Attr) (iop : Int) (ia : Attr)
    (hno : ¬ (v.1 = INDEX ∧ iop = UNINDEX)) :
    reduceStep [(k, v)] (iop, k, ia)
      = [(k, (min (max (v.1 + iop) UNINDEX) INDEX, combineAttr v.2 ia))] := by
  simp [reduceStep, dictGet, dictSet, hno]

theorem optimize_pair (k : κ) (op1 op2 : Int) (a1 a2 : Attr)
    (hno : ¬ (min (max op1 UNINDEX) INDEX = INDEX ∧ op2 = UNINDEX)) :
    optimize [(op1, k, a1), (op2, k, a2)]
      = [(min (max (min (max op1 UNINDEX) INDEX + op2) UNINDEX) INDEX, k,
          combineAttr (combineAttr a1 a1) a2)] := by
  simp only [optimize, List.foldl_cons, List.foldl_nil, reduceStep_nil]
  rw [reduceStep_same_key k _ op2 a2 hno]
  simp

end Reducer

theorem all_map_const_true {α β : Type} (l : List α) (f : α → β) (p : β → Bool)
    (h : ∀ a, p (f a) = true) : (l.map f).all p = true := by
  induction l with
  | nil => rfl
  | cons x xs ih => simp [h, ih]

theorem all_not_commit_of_all_dispatch {κ : Type} (l : List (Event κ))
    (h : l.all isDispatchEvent = true) : (l.all fun e => !isCommitEvent e) = true := by
  rw [List.all_eq_true] at *
  intro e he
  have hd := h e he
  cases e <;> simp_all [isDispatchEvent, isCommitEvent]

theorem dispatchAll_count {κ : Type} (utils : List Nat) (q : List (QEntry κ))
    (h : (dispatchAll utils q).2.1 = none) : (dispatchAll utils q).2.2 = q.length := by
  induction q with
  | nil => rfl
  | cons e rest ih =>
    simp only [dispatchAll] at h ⊢
    cases hd : dispatchOne utils e with
    | error er =>
      rw [hd] at h
      exact Option.noConfusion h
    | ok evts =>
      rw [hd] at h
      simp only [List.length_cons]
      exact congrArg (· + 1) (ih h)

theorem dispatchAll_events_dispatch {κ : Type} (utils : List Nat) (q : List (QEntry κ)) :
    ((dispatchAll utils q).1).all isDispatchEvent = true := by
  induction q with
  | nil => rfl
  | cons e rest ih =>
    simp only [dispatchAll]
    cases hd : dispatchOne utils e with
    | error er => rfl
    | ok evts =>
      have hevts : evts.all isDispatchEvent = true := by
        unfold dispatchOne at hd
        split at hd
        · cases hd
          exact all_map_const_true utils _ isDispatchEvent fun a => rfl
        · split at hd
          · cases hd
            exact all_map_const_true utils _ isDispatchEvent fun a => rfl
          · split at hd
            · cases hd
              exact all_map_const_true utils _ isDispatchEvent fun a => rfl
            · split at hd
              · cases hd
                rfl
              · cases hd
      simp [List.all_append, hevts, ih]

/-! ## Claims -/

/-- C1 (counterexample): the claim fails on the `src/collective` variant of
`IndexQueue.process`, which never runs the reduction and returns the raw
count.  On the queue `[(INDEX, "a", None), (UNINDEX, "a", None)]` with one
registered utility it dispatches both raw entries and returns `2`, while
`0` entries remain after reduction. -/
theorem c1_counterexample :
    QueueA.process [0] (⟨[(1, "a", none), (-1, "a", none)]⟩ : QueueA.State String)
      = (⟨[]⟩,
         [Event.begin 0, Event.index 0 "a" none, Event.unindex 0 "a", Event.commit 0],
         Except.ok 2)
    ∧ (Reducer.optimize [((1 : Int), "a", (none : Attr)), (-1, "a", none)]).length = 0
    ∧ (2 : Nat) ≠ 0 :=
  ⟨rfl, by decide, by decide⟩

/-- C1 (amended): in the `src/src` variant, a successful `process()` runs the
registered reducer over the queued entries before dispatching, clears the
queue, and returns exactly the number of entries remaining after reduction;
the `src/collective` variant instead dispatches the raw log and returns the
raw pre-reduction count. -/
theorem c1_process_reduction_count {κ : Type} [DecidableEq κ] (utils : List Nat)
    (s : QueueB.State κ) (sa : QueueA.State κ)
    (hb : (dispatchAll utils (Reducer.optimize s.queue)).2.1 = none)
    (ha : (dispatchAll utils sa.queue).2.1 = none) :
    QueueB.process utils (some Reducer.optimize) s
      = (⟨[], false⟩,
         utils.map Event.begin ++ (dispatchAll utils (Reducer.optimize s.queue)).1,
         Except.ok (Reducer.optimize s.queue).length)
    ∧ QueueA.process utils sa
      = (⟨[]⟩,
         utils.map Event.begin ++ (dispatchAll utils sa.queue).1 ++ utils.map Event.commit,
         Except.ok sa.queue.length) := by
  constructor
  · have hn := dispatchAll_count utils (Reducer.optimize s.queue) hb
    rcases hda : dispatchAll utils (Reducer.optimize s.queue) with ⟨evts, er, n⟩
    rw [hda] at hb hn
    simp only at hb hn
    subst hb
    subst hn
    simp [QueueB.process, QueueB.optimize, QueueB.clear, hda]
  · have hn := dispatchAll_count utils sa.queue ha
    rcases hda : dispatchAll utils sa.queue with ⟨evts, er, n⟩
    rw [hda] at ha hn
    simp only at ha hn
    subst ha
    subst hn
    simp [QueueA.process, hda]

/-- C1 (witness for the amended theorem): concrete instantiation with one
utility, a queue that reduces away completely in variant B, and a one-entry
queue in variant A. -/
theorem c1_witness :
    (dispatchAll [0]
        (Reducer.optimize [((1 : Int), "a", (none : Attr)), (-1, "a", none)])).2.1 = none
    ∧ (dispatchAll (κ := String) [0] [((0 : Int), "b", (none : Attr))]).2.1 = none
    ∧ (QueueB.process [0] (some Reducer.optimize)
          (⟨[(1, "a", none), (-1, "a", none)], true⟩ : QueueB.State String)
        = (⟨[], false⟩,
           [0].map Event.begin
             ++ (dispatchAll [0]
                  (Reducer.optimize [((1 : Int), "a", (none : Attr)), (-1, "a", none)])).1,
           Except.ok (Reducer.optimize [((1 : Int), "a", (none : Attr)), (-1, "a", none)]).length)
       ∧ QueueA.process [0] (⟨[(0, "b", none)]⟩ : QueueA.State String)
        = (⟨[]⟩,
           [0].map Event.begin ++ (dispatchAll (κ := String) [0] [((0 : Int), "b", (none : Attr))]).1
             ++ [0].map Event.commit,
           Except.ok ((⟨[(0, "b", none)]⟩ : QueueA.State String).queue.length))) :=
  ⟨by decide, by decide,
   c1_process_reduction_count [0] ⟨[(1, "a", none), (-1, "a", none)], true⟩
     ⟨[(0, "b", none)]⟩ (by decide) (by decide)⟩

/-- C2 (counterexample): the claim fails on the `src/src` variant of
`IndexQueue.process`: a successful `process()` on a non-empty reduced log
calls `begin()` before dispatch but never calls `commit()` — committing is
the separate `commit` method there.  One utility, one `REINDEX` entry. -/
theorem c2_counterexample :
    QueueB.process [0] (some Reducer.optimize)
        (⟨[(0, "a", none)], true⟩ : QueueB.State String)
      = (⟨[], false⟩, [Event.begin 0, Event.reindex 0 "a" none], Except.ok 1)
    ∧ Event.commit 0 ∉ ([Event.begin 0, Event.reindex 0 "a" none] : List (Event String)) :=
  ⟨rfl, by decide⟩

/-- C2 (amended): both variants call `begin()` on every backend, in
registration order, before any dispatch.  The `src/collective` variant then
calls `commit()` on every backend, in registration order, after all
dispatch; the `src/src` variant never emits a `commit()` from inside
`process` (its separate `commit` method does that). -/
theorem c2_begin_before_dispatch {κ : Type} [DecidableEq κ] (utils : List Nat)
    (sa : QueueA.State κ)
    (reducer : Option (List (QEntry κ) → List (QEntry κ))) (sb : QueueB.State κ)
    (ha : (dispatchAll utils sa.queue).2.1 = none) :
    ((QueueA.process utils sa).2.1
        = utils.map Event.begin ++ (dispatchAll utils sa.queue).1 ++ utils.map Event.commit
      ∧ ((dispatchAll utils sa.queue).1).all isDispatchEvent = true)
    ∧ ((QueueB.process utils reducer sb).2.1
        = utils.map Event.begin ++ (dispatchAll utils (QueueB.optimize reducer sb).queue).1
      ∧ ((dispatchAll utils (QueueB.optimize reducer sb).queue).1).all isDispatchEvent = true
      ∧ ((QueueB.process utils reducer sb).2.1.all fun e => !isCommitEvent e) = true) := by
  refine ⟨⟨?_, dispatchAll_events_dispatch utils sa.queue⟩, ?_,
    dispatchAll_events_dispatch utils (QueueB.optimize reducer sb).queue, ?_⟩
  · rcases hda : dispatchAll utils sa.queue with ⟨evts, er, n⟩
    rw [hda] at ha
    simp only at ha
    subst ha
    simp [QueueA.process, hda]
  · rcases hdb : dispatchAll utils (QueueB.optimize reducer sb).queue with ⟨evts, er, n⟩
    cases er with
    | none => simp [QueueB.process, hdb]
    | some er => simp [QueueB.process, hdb]
  · rcases hdb : dispatchAll utils (QueueB.optimize reducer sb).queue with ⟨evts, er, n⟩
    have hevts : evts.all isDispatchEvent = true := by
      have h := dispatchAll_events_dispatch utils (QueueB.optimize reducer sb).queue
      rw [hdb] at h
      exact h
    have hbegin : ((utils.map Event.begin : List (Event κ)).all fun e => !isCommitEvent e)
        = true :=
      all_map_const_true utils Event.begin _ fun a => rfl
    have hnc := all_not_commit_of_all_dispatch evts hevts
    cases er with
    | none => simp [QueueB.process, hdb, List.all_append, hbegin, hnc]
    | some er => simp [QueueB.process, hdb, List.all_append, hbegin, hnc]

/-- C2 (witness for the amended theorem): two utilities and a one-entry
queue in variant A; variant B run on the same shape of state. -/
theorem c2_witness :
    (dispatchAll (κ := String) [0, 1] [((0 : Int), "a", (none : Attr))]).2.1 = none
    ∧ (((QueueA.process [0, 1] (⟨[(0, "a", none)]⟩ : QueueA.State String)).2.1
          = [0, 1].map Event.begin
              ++ (dispatchAll (κ := String) [0, 1] [((0 : Int), "a", (none : Attr))]).1
              ++ [0, 1].map Event.commit
        ∧ ((dispatchAll (κ := String) [0, 1] [((0 : Int), "a", (none : Attr))]).1).all
            isDispatchEvent = true)
       ∧ ((QueueB.process [0, 1] (some Reducer.optimize)
              (⟨[(0, "a", none)], true⟩ : QueueB.State String)).2.1
            = [0, 1].map Event.begin
                ++ (dispatchAll [0, 1]
                     (QueueB.optimize (some Reducer.optimize)
                       (⟨[(0, "a", none)], true⟩ : QueueB.State String)).queue).1
          ∧ ((dispatchAll [0, 1]
                (QueueB.optimize (some Reducer.optimize)
                  (⟨[(0, "a", none)], true⟩ : QueueB.State String)).queue).1).all
              isDispatchEvent = true
          ∧ ((QueueB.process [0, 1] (some Reducer.optimize)
                (⟨[(0, "a", none)], true⟩ : QueueB.State String)).2.1.all
                fun e => !isCommitEvent e) = true)) :=
  ⟨by decide,
   c2_begin_before_dispatch [0, 1] ⟨[(0, "a", none)]⟩ (some Reducer.optimize)
     ⟨[(0, "a", none)], true⟩ (by decide)⟩

/-- C3 (confirmed): when the accumulated operation for a key is `INDEX` and
an `UNINDEX` for that key arrives, the reduction step deletes the key from
the accumulator, so the key is gone from the result; in particular
`index(K)` directly followed by `unindex(K)` reduces to no entry at all. -/
theorem c3_cancellation {κ : Type} [DecidableEq κ] (res : List (κ × Int × Attr)) (k : κ)
    (a ia : Attr) (k2 : κ) (a1 a2 : Attr)
    (h : Reducer.dictGet res k = some (INDEX, a)) :
    Reducer.reduceStep res (UNINDEX, k, ia) = Reducer.dictDel res k
    ∧ Reducer.dictGet (Reducer.reduceStep res (UNINDEX, k, ia)) k = none
    ∧ Reducer.optimize [(INDEX, k2, a1), (UNINDEX, k2, a2)] = [] := by
  have hstep : Reducer.reduceStep res (UNINDEX, k, ia) = Reducer.dictDel res k := by
    simp [Reducer.reduceStep, h, INDEX, UNINDEX]
  refine ⟨hstep, ?_, ?_⟩
  · rw [hstep]
    exact Reducer.dictGet_dictDel res k
  · simp only [Reducer.optimize, List.foldl_cons, List.foldl_nil, Reducer.reduceStep_nil]
    rw [show min (max INDEX UNINDEX) INDEX = INDEX from by decide]
    have hdel : Reducer.reduceStep [(k2, (INDEX, Reducer.combineAttr a1 a1))]
        (UNINDEX, k2, a2) = [] := by
      simp [Reducer.reduceStep, Reducer.dictGet, Reducer.dictDel, INDEX, UNINDEX]
    rw [hdel]
    rfl

/-- C3 (witness): a concrete accumulator holding `("a", (INDEX, None))`, an
incoming `UNINDEX` for `"a"`, and the concrete two-entry log on key `"b"`. -/
theorem c3_witness :
    Reducer.dictGet [("a", ((1 : Int), (none : Attr)))] "a" = some (INDEX, none)
    ∧ (Reducer.reduceStep [("a", ((1 : Int), (none : Attr)))] (UNINDEX, "a", none)
         = Reducer.dictDel [("a", ((1 : Int), (none : Attr)))] "a"
       ∧ Reducer.dictGet
           (Reducer.reduceStep [("a", ((1 : Int), (none : Attr)))] (UNINDEX, "a", none)) "a"
           = none
       ∧ Reducer.optimize [(INDEX, "b", some ["x"]), (UNINDEX, "b", none)] = []) :=
  ⟨by decide,
   c3_cancellation [("a", ((1 : Int), (none : Attr)))] "a" none none "b" (some ["x"]) none
     (by decide)⟩

/-- C4 (confirmed): the reducer combines attribute sets so that `None`
("all attributes") in either operand makes the result `None`, and two
attribute tuples combine to their set union; in particular
`reindex(K, ("title",))` followed by `reindex(K, ("body",))` reduces to
`(REINDEX, K, ("title", "body"))`, and an "all" attribute set on `K`
dominates in either order. -/
theorem c4_attribute_combination {κ : Type} [DecidableEq κ] (k : κ) :
    (∀ b : Attr, Reducer.combineAttr none b = none ∧ Reducer.combineAttr b none = none)
    ∧ (∀ a b : List String,
        Reducer.combineAttr (some a) (some b) = some (Reducer.unionKeys a b))
    ∧ (∀ (a b : List String) (x : String),
        x ∈ Reducer.unionKeys a b ↔ x ∈ a ∨ x ∈ b)
    ∧ Reducer.optimize [(REINDEX, k, some ["title"]), (REINDEX, k, some ["body"])]
        = [(REINDEX, k, some ["title", "body"])]
    ∧ (∀ a : List String,
        Reducer.optimize [(REINDEX, k, (none : Attr)), (REINDEX, k, some a)]
          = [(REINDEX, k, none)]
        ∧ Reducer.optimize [(REINDEX, k, some a), (REINDEX, k, (none : Attr))]
          = [(REINDEX, k, none)]) := by
  have hno : ¬ (min (max REINDEX UNINDEX) INDEX = INDEX ∧ REINDEX = UNINDEX) := by decide
  have hcl : min (max (min (max REINDEX UNINDEX) INDEX + REINDEX) UNINDEX) INDEX
      = REINDEX := by decide
  refine ⟨fun b => ⟨rfl, by cases b <;> rfl⟩, fun a b => rfl, Reducer.mem_unionKeys, ?_, ?_⟩
  · rw [Reducer.optimize_pair k REINDEX REINDEX (some ["title"]) (some ["body"]) hno, hcl]
    rw [show Reducer.combineAttr (Reducer.combineAttr (some ["title"]) (some ["title"]))
          (some ["body"]) = some ["title", "body"] from rfl]
  · intro a
    constructor
    · rw [Reducer.optimize_pair k REINDEX REINDEX none (some a) hno, hcl]
      rfl
    · rw [Reducer.optimize_pair k REINDEX REINDEX (some a) none hno, hcl]
      rfl

/-- C5 (confirmed): for every operation log, the output of
`QueueReducer.optimize` contains at most one entry per distinct object key:
the keys of the emitted triples are pairwise distinct. -/
theorem c5_at_most_one_entry_per_key {κ : Type} [DecidableEq κ] (q : List (QEntry κ)) :
    ((Reducer.optimize q).map fun e => e.2.1).Nodup := by
  have h := Reducer.nodup_keys_foldl q [] (by simp)
  have heq : ((Reducer.optimize q).map fun e => e.2.1)
      = (q.foldl Reducer.reduceStep []).map Prod.fst := by
    simp only [Reducer.optimize, List.map_map]
    rfl
  rw [heq]
  exact h

/-- C6 (confirmed): in both variants, calling `index`, `reindex` or
`unindex` with a `None` object fails the `assert obj is not None` guard
synchronously, before the queue is touched: the state comes back unchanged
together with the invalid-operand error. -/
theorem c6_invalid_operand_rejected {κ : Type} (sa : QueueA.State κ)
    (sb : QueueB.State κ) (attrs : Attr) :
    QueueA.index sa none attrs = (sa, some QueueError.invalidOperand)
    ∧ QueueA.reindex sa none attrs = (sa, some QueueError.invalidOperand)
    ∧ QueueA.unindex sa none = (sa, some QueueError.invalidOperand)
    ∧ QueueB.index sb none attrs = (sb, some QueueError.invalidOperand)
    ∧ QueueB.reindex sb none attrs = (sb, some QueueError.invalidOperand)
    ∧ QueueB.unindex sb none = (sb, some QueueError.invalidOperand) :=
  ⟨rfl, rfl, rfl, rfl, rfl, rfl⟩

/-- C7 (counterexample): the claim fails on the code: `setState` only
asserts `isinstance(state, list)`, so the list `[42]` — which is not an
ordered sequence of QueueEntry triples — is accepted without an
`InvalidState` error and replaces the log. -/
theorem c7_counterexample :
    PyRaw.setState [] (PyRaw.PyVal.pylist [PyRaw.PyVal.pyint 42])
      = ([PyRaw.PyVal.pyint 42], none)
    ∧ PyRaw.isEntrySeq (PyRaw.PyVal.pylist [PyRaw.PyVal.pyint 42]) = false
    ∧ ([PyRaw.PyVal.pyint 42] : List PyRaw.PyVal) ≠ [] :=
  ⟨rfl, rfl, by simp⟩

/-- C7 (amended): `setState` rejects exactly the non-list inputs with an
`InvalidState` error, leaving the log unchanged; any list — even one whose
elements are not well-formed QueueEntry triples — is accepted verbatim and
replaces the log. -/
theorem c7_setstate_is_list_check (q : List PyRaw.PyVal) :
    (∀ xs : List PyRaw.PyVal, PyRaw.setState q (PyRaw.PyVal.pylist xs) = (xs, none))
    ∧ (∀ n : Int, PyRaw.setState q (PyRaw.PyVal.pyint n)
        = (q, some QueueError.invalidState))
    ∧ (∀ (op : Int) (obj : String) (attr : Attr),
        PyRaw.setState q (PyRaw.PyVal.pytriple op obj attr)
          = (q, some QueueError.invalidState)) :=
  ⟨fun _ => rfl, fun _ => rfl, fun _ _ _ => rfl⟩

/-- C8 (confirmed): in both variants `setState(getState())` is the
identity on the queue state: the snapshot/restore round trip changes
nothing and raises no error. -/
theorem c8_state_roundtrip {κ : Type} (sa : QueueA.State κ) (sb : QueueB.State κ) :
    QueueA.setState sa (QueueA.getState sa) = (sa, none)
    ∧ QueueB.setState sb (QueueB.getState sb) = (sb, none) := by
  constructor
  · cases sa
    rfl
  · cases sb
    rfl

/-- C9 (confirmed): `abort()` notifies every utility with `abort()` only —
the emitted trace consists solely of abort events, so no `index`,
`reindex`, `unindex` or `commit` call is ever made — and it always leaves
the operation log empty (and the hook disarmed). -/
theorem c9_abort_only_aborts {κ : Type} (utils : List Nat) (s : QueueB.State κ) :
    QueueB.abort utils s = (⟨[], false⟩, utils.map Event.abort)
    ∧ ((utils.map Event.abort : List (Event κ)).all isAbortEvent) = true
    ∧ (QueueB.abort utils s).1.queue = [] :=
  ⟨rfl, all_map_const_true utils Event.abort isAbortEvent fun _ => rfl, rfl⟩

/-- C10 (confirmed): on an empty log, `process()` still calls `begin()` on
every registered utility — and, in the variant that commits inside
`process` (variant A), also `commit()` on every utility — dispatches
nothing, leaves the log empty, and returns 0.  Variant B is covered both
with and without a registered reducer. -/
theorem c10_process_empty {κ : Type} [DecidableEq κ] (utils : List Nat) (hk : Bool) :
    QueueA.process utils (⟨[]⟩ : QueueA.State κ)
      = (⟨[]⟩, utils.map Event.begin ++ utils.map Event.commit, Except.ok 0)
    ∧ QueueB.process utils (some Reducer.optimize) (⟨[], hk⟩ : QueueB.State κ)
      = (⟨[], false⟩, utils.map Event.begin, Except.ok 0)
    ∧ QueueB.process utils none (⟨[], hk⟩ : QueueB.State κ)
      = (⟨[], false⟩, utils.map Event.begin, Except.ok 0) := by
  refine ⟨?_, ?_, ?_⟩
  · simp [QueueA.process, dispatchAll]
  · simp [QueueB.process, QueueB.optimize, QueueB.clear, Reducer.optimize, dispatchAll]
  · simp [QueueB.process, QueueB.optimize, QueueB.clear, dispatchAll]

end CollectiveIndexing
